import Mathlib

/-!
Verification development for the `fetch_rates` management command
(`src/mru_fx/fx/management/commands/fetch_rates.py`).

The Python command is shallowly embedded here:

* JSON payloads delivered by the remote source are modelled by the dynamic
  value type `PyVal` (JSON numbers are modelled as integers; the claims under
  study never depend on fractional number literals).
* `datetime.strptime(s, "%Y-%m-%d").date()` is modelled by
  `parseDateYYYYMMDD`, following CPython's `_strptime` regular expressions
  for `%Y` (exactly four digits), `%m` and `%d` (one or two digits, range
  checked) plus the `datetime` constructor's day-of-month validation.
* `decimal.Decimal(string)` acceptance is modelled by `decValid`
  (sign, coefficient with optional dot, optional exponent, and the
  Infinity/NaN forms, after stripping surrounding whitespace; numeric-literal
  underscores are not modelled).
* The stateful parts (HTTP transport and the Django ORM) are external
  collaborators: the transport is a parameter `net`, and the two
  `update_or_create` calls are recorded as explicit write lists in
  `RunResult`.  `@transaction.atomic` is captured by `Except`: a run that
  returns `Except.error` commits nothing.
-/

/-- Calendar date as produced by `datetime.strptime(...).date()`.
Python compares `date` values chronologically, which for parsed
year/month/day triples is the lexicographic order used below. -/
structure PyDate where
  y : Nat
  m : Nat
  d : Nat
deriving DecidableEq, Repr

/-- Python `a < b` on dates: lexicographic on (year, month, day). -/
def PyDate.ltb (a b : PyDate) : Bool :=
  decide (a.y < b.y ∨ (a.y = b.y ∧ (a.m < b.m ∨ (a.m = b.m ∧ a.d < b.d))))

/-- The value of `decimal.Decimal(s)`, kept as the accepted source text:
no arithmetic is ever performed on the parsed decimal by the command. -/
structure PyDecimal where
  raw : String
deriving DecidableEq, Repr

/-- Dynamic (JSON-decoded) Python values as seen by the command.  JSON
numbers are modelled as integers; the claims never depend on float literals. -/
inductive PyVal
  | none
  | bool (b : Bool)
  | int (n : Int)
  | str (s : String)
  | list (xs : List PyVal)
  | dict (kvs : List (String × PyVal))

/-- Python `repr` of a value, used by `str()` on non-strings.  Container
element rendering follows CPython (`[x, y]`, `\x7bk: v\x7d`, strings
quoted); the exact text is never load-bearing: it only feeds the currency
comparison and the date/decimal parsers, which reject any bracketed form. -/
def pyReprOf : PyVal → String
  | PyVal.none => "None"
  | PyVal.bool b => if b then "True" else "False"
  | PyVal.int n => toString n
  | PyVal.str s => "\x27" ++ s ++ "\x27"
  | PyVal.list xs =>
      "[" ++ String.intercalate ", " (xs.attach.map (fun p => pyReprOf p.1)) ++ "]"
  | PyVal.dict kvs =>
      "\x7b" ++ String.intercalate ", "
        (kvs.attach.map (fun p => "\x27" ++ p.1.1 ++ "\x27: " ++ pyReprOf p.1.2)) ++ "\x7d"
decreasing_by
  · have := List.sizeOf_lt_of_mem p.2; simp at this ⊢; omega
  · obtain ⟨⟨k, v⟩, hp⟩ := p
    have := List.sizeOf_lt_of_mem hp
    simp at this ⊢
    omega

/-- Python `str(x)`. -/
def pyStrOf : PyVal → String
  | PyVal.str s => s
  | v => pyReprOf v

/-- Python truthiness (`bool(x)`): `None`, `False`, `0`, `""`, `[]` and
`\x7b\x7d` are falsy. -/
def pyTruthy : PyVal → Bool
  | PyVal.none => false
  | PyVal.bool b => b
  | PyVal.int n => n != 0
  | PyVal.str s => !s.isEmpty
  | PyVal.list xs => !xs.isEmpty
  | PyVal.dict kvs => !kvs.isEmpty

/-- Python `x is None`. -/
def isNoneB : PyVal → Bool
  | PyVal.none => true
  | _ => false

/-- Python `d.get(k, dflt)`.  A JSON object is a finite map; the list model
uses the first binding for a key.  An absent key and a key bound to JSON
`null` both surface through `d.get(k)` as `None`, exactly as in Python. -/
def dictGet (kvs : List (String × PyVal)) (k : String) (dflt : PyVal) : PyVal :=
  (kvs.lookup k).getD dflt

/-- Characters stripped by Python `str.strip()` (ASCII whitespace). -/
def pyIsSpace (c : Char) : Bool :=
  c = ' ' ∨ c = '\t' ∨ c = '\n' ∨ c = '\r' ∨ c.toNat = 11 ∨ c.toNat = 12

/-- Python `s.strip()`.  Implemented over the character list so that the
model is kernel-computable (Lean's own `String.trim` is compiled by
well-founded recursion and does not reduce). -/
def pyStrip (s : String) : String :=
  ⟨((s.data.dropWhile pyIsSpace).reverse.dropWhile pyIsSpace).reverse⟩

/-- Python `s.upper()` (ASCII case mapping). -/
def pyUpper (s : String) : String := ⟨s.data.map Char.toUpper⟩

/-- Python `s.lower()` (ASCII case mapping). -/
def pyLower (s : String) : String := ⟨s.data.map Char.toLower⟩

/-- Digit run to number, for `int(s)`. -/
def digitsToNat (cs : List Char) : Nat :=
  cs.foldl (fun acc c => acc * 10 + (c.toNat - 48)) 0

/-- Python `s.strip()` whitespace trim and `int(s)` digit parsing:
optional surrounding whitespace, one optional sign, then decimal digits
(numeric-literal underscores are not modelled). -/
def parseIntStr (s : String) : Option Int :=
  match (pyStrip s).data with
  | [] => Option.none
  | c :: cs =>
      let p : Int × List Char :=
        if c = '-' then (-1, cs) else if c = '+' then (1, cs) else (1, c :: cs)
      if p.2 ≠ [] ∧ p.2.all Char.isDigit then some (p.1 * (digitsToNat p.2 : Int))
      else Option.none

/-- Python `int(x)` on a dynamic value: `True`/`False` convert to 1/0,
integers pass through, strings are parsed, everything else raises
(`ValueError`/`TypeError`), modelled as `none`. -/
def pyIntOf : PyVal → Option Int
  | PyVal.bool b => some (if b then 1 else 0)
  | PyVal.int n => some n
  | PyVal.str s => parseIntStr s
  | _ => Option.none

/-- Lines 99-102 of the source: `w = int(w_raw) if w_raw is not None else 1`
wrapped in `try/except (ValueError, TypeError): w = 1`. -/
def effectiveWeight : PyVal → Int
  | PyVal.none => 1
  | w => (pyIntOf w).getD 1

/-- CPython `_strptime` pattern for `%m`: `1[0-2]|0[1-9]|[1-9]`,
alternatives tried in that order.  Returns the month and the unconsumed
characters. -/
def parseMonthField : List Char → Option (Nat × List Char)
  | c1 :: c2 :: rest =>
      if c1 = '1' ∧ (c2 = '0' ∨ c2 = '1' ∨ c2 = '2') then
        some (10 + (c2.toNat - 48), rest)
      else if c1 = '0' ∧ c2.isDigit ∧ c2 ≠ '0' then
        some (c2.toNat - 48, rest)
      else if c1.isDigit ∧ c1 ≠ '0' then
        some (c1.toNat - 48, c2 :: rest)
      else
        Option.none
  | [c1] =>
      if c1.isDigit ∧ c1 ≠ '0' then some (c1.toNat - 48, []) else Option.none
  | [] => Option.none

/-- CPython `_strptime` pattern for `%d`: `3[01]|[12]\d|0[1-9]|[1-9]`. -/
def parseDayField : List Char → Option (Nat × List Char)
  | c1 :: c2 :: rest =>
      if c1 = '3' ∧ (c2 = '0' ∨ c2 = '1') then
        some (30 + (c2.toNat - 48), rest)
      else if (c1 = '1' ∨ c1 = '2') ∧ c2.isDigit then
        some ((c1.toNat - 48) * 10 + (c2.toNat - 48), rest)
      else if c1 = '0' ∧ c2.isDigit ∧ c2 ≠ '0' then
        some (c2.toNat - 48, rest)
      else if c1.isDigit ∧ c1 ≠ '0' then
        some (c1.toNat - 48, c2 :: rest)
      else
        Option.none
  | [c1] =>
      if c1.isDigit ∧ c1 ≠ '0' then some (c1.toNat - 48, []) else Option.none
  | [] => Option.none

/-- Gregorian leap-year rule used by `datetime`. -/
def isLeap (y : Nat) : Bool :=
  decide (y % 4 = 0 ∧ (y % 100 ≠ 0 ∨ y % 400 = 0))

/-- Days in a month, as validated by the `datetime` constructor. -/
def daysInMonth (y m : Nat) : Nat :=
  if m = 2 then (if isLeap y then 29 else 28)
  else if m = 4 ∨ m = 6 ∨ m = 9 ∨ m = 11 then 30
  else 31

/-- `_parse_date_yyyy_mm_dd` (source lines 29-30):
`datetime.strptime(s, "%Y-%m-%d").date()`.  `%Y` is exactly four digits,
the whole string must be consumed, and `datetime` rejects year 0 and
out-of-range days.  `none` models the raised `ValueError`. -/
def parseDateYYYYMMDD (s : String) : Option PyDate :=
  match s.toList with
  | y1 :: y2 :: y3 :: y4 :: '-' :: rest =>
      if y1.isDigit ∧ y2.isDigit ∧ y3.isDigit ∧ y4.isDigit then
        let y := (((y1.toNat - 48) * 10 + (y2.toNat - 48)) * 10 +
                  (y3.toNat - 48)) * 10 + (y4.toNat - 48)
        match parseMonthField rest with
        | some (m, '-' :: rest2) =>
            match parseDayField rest2 with
            | some (d, []) =>
                if 1 ≤ y ∧ 1 ≤ d ∧ d ≤ daysInMonth y m then some ⟨y, m, d⟩
                else Option.none
            | _ => Option.none
        | _ => Option.none
      else
        Option.none
  | _ => Option.none

/-- All-digit check on a possibly empty character run. -/
def allDigitsL (cs : List Char) : Bool := cs.all Char.isDigit

/-- Nonempty all-digit check. -/
def someDigitsL (cs : List Char) : Bool := !cs.isEmpty && allDigitsL cs

/-- Drop one leading sign character if present. -/
def stripSignL : List Char → List Char
  | [] => []
  | c :: cs => if c = '+' ∨ c = '-' then cs else c :: cs

/-- Prefix test on character lists. -/
def listStartsWith : List Char → List Char → Bool
  | [], _ => true
  | _ :: _, [] => false
  | p :: ps, c :: cs => p = c && listStartsWith ps cs

/-- Split a character list on a separator character (like `str.split`). -/
def splitOnChar (sep : Char) : List Char → List (List Char)
  | [] => [[]]
  | c :: cs =>
      match splitOnChar sep cs with
      | [] => if c = sep then [[], []] else [[c]]
      | g :: gs => if c = sep then [] :: g :: gs else (c :: g) :: gs

/-- `Decimal` coefficient: `digits [. digits]` with at least one digit. -/
def coeffValidL (cs : List Char) : Bool :=
  match splitOnChar '.' cs with
  | [a] => someDigitsL a
  | [a, b] => allDigitsL a && allDigitsL b && (!a.isEmpty || !b.isEmpty)
  | _ => false

/-- `Decimal` exponent: optional sign then digits. -/
def expValidL (cs : List Char) : Bool := someDigitsL (stripSignL cs)

/-- Finite `Decimal` literal (already lowercased, sign stripped). -/
def numValidL (cs : List Char) : Bool :=
  match splitOnChar 'e' cs with
  | [c] => coeffValidL c
  | [c, ex] => coeffValidL c && expValidL ex
  | _ => false

/-- Whether `decimal.Decimal(s)` accepts `s`: surrounding whitespace is
stripped, matching is case-insensitive, and the Infinity/NaN/sNaN forms
are accepted alongside finite numerals. -/
def decValid (s : String) : Bool :=
  let t := (pyLower (pyStrip s)).data
  let u := stripSignL t
  if u = "inf".data ∨ u = "infinity".data then true
  else if listStartsWith "snan".data u then allDigitsL (u.drop 4)
  else if listStartsWith "nan".data u then allDigitsL (u.drop 3)
  else numValidL u

/-- Errors that abort the whole run.  `@transaction.atomic` on `handle`
means any of these rolls back every write of the invocation. -/
inductive RunErr
  | configError (msg : String)
  /-- `ValueError` raised by `datetime.strptime`, carrying the rejected text. -/
  | valueError (s : String)
  /-- `CommandError` from `_to_decimal`, carrying the offending value that the
  source interpolates into the message text. -/
  | commandError (x : PyVal)
  | transportError

/-- `_to_decimal` (source lines 33-37): `Decimal(str(x))`, with
`InvalidOperation`/`TypeError` converted to `CommandError`. -/
def to_decimal (x : PyVal) : Except RunErr PyDecimal :=
  let s := pyStrOf x
  if decValid s then Except.ok ⟨pyStrip s⟩ else Except.error (RunErr.commandError x)

/-- `BcmRateRow` (source lines 20-26). -/
structure BcmRateRow where
  rate_date : PyDate
  currency : String
  value : PyDecimal
  weight : Int
  name_english : String
deriving DecidableEq, Repr

/-- Python `a or b` on dynamic values. -/
def pyOr (a b : PyVal) : PyVal := if pyTruthy a then a else b

/-- The body of the `for item in payload` loop of
`_fetch_latest_rate_in_range` (source lines 80-107) for a single record.
`Except.ok none` means the record is skipped; `Except.ok (some row)`
appends a validated row; `Except.error` models an uncaught exception. -/
def processItem (currency : String) (item : PyVal) : Except RunErr (Option BcmRateRow) :=
  match item with
  | PyVal.dict kvs =>
      let ccy := pyUpper (pyStrOf (dictGet kvs "currency" (PyVal.str "")))
      if ccy ≠ pyUpper currency then Except.ok Option.none
      else
        let d_raw := dictGet kvs "date" PyVal.none
        let v_raw := dictGet kvs "value" PyVal.none
        let w_raw := dictGet kvs "weight" (PyVal.int 1)
        let name_en := pyStrip (pyStrOf (pyOr (dictGet kvs "nameEnglish" (PyVal.str "")) (PyVal.str "")))
        if !pyTruthy d_raw || isNoneB v_raw then Except.ok Option.none
        else
          match parseDateYYYYMMDD (pyStrOf d_raw) with
          | Option.none => Except.error (RunErr.valueError (pyStrOf d_raw))
          | some d =>
              match to_decimal v_raw with
              | Except.error e => Except.error e
              | Except.ok v =>
                  let w := effectiveWeight w_raw
                  if w ≤ 0 then Except.ok Option.none
                  else Except.ok (some ⟨d, ccy, v, w, name_en⟩)
  | _ => Except.ok Option.none

/-- The `rows` list accumulated by the loop of
`_fetch_latest_rate_in_range`, in payload order; the first uncaught
exception aborts. -/
def collectRows (currency : String) : List PyVal → Except RunErr (List BcmRateRow)
  | [] => Except.ok []
  | item :: items =>
      match processItem currency item with
      | Except.error e => Except.error e
      | Except.ok Option.none => collectRows currency items
      | Except.ok (some r) =>
          match collectRows currency items with
          | Except.error e => Except.error e
          | Except.ok rs => Except.ok (r :: rs)

/-- `max(rows, key=lambda r: r.rate_date)` (source line 112).  Python's
`max` keeps the current best unless a later item is strictly greater, so
ties resolve to the earliest item. -/
def maxByRateDate : List BcmRateRow → Option BcmRateRow
  | [] => Option.none
  | r :: rs =>
      some (rs.foldl (fun best x => if PyDate.ltb best.rate_date x.rate_date then x else best) r)

/-- `_fetch_latest_rate_in_range` (source lines 54-112), with the HTTP call
factored out: the function here receives the already-decoded JSON payload. -/
def fetch_latest_rate_in_range (payload : PyVal) (currency : String) :
    Except RunErr (Option BcmRateRow) :=
  match payload with
  | PyVal.list items =>
      if items.isEmpty then Except.ok Option.none
      else
        match collectRows currency items with
        | Except.error e => Except.error e
        | Except.ok rows => Except.ok (maxByRateDate rows)
  | _ => Except.ok Option.none

/-- The backward-expanding window loop of `Command.handle`
(source lines 174-182), one currency at a time.  `fetch w` stands for
`_fetch_latest_rate_in_range(session, api_base, ccy, to_dt - timedelta(days=w), to_dt)`:
the query is determined by the window size `w` because `to_dt` is fixed for
the whole run.  The returned list records the window sizes actually
queried, in order.  The loop is written with explicit fuel so that it is
total even for `lookback = 0` (which `handle` rejects before the loop);
`searchFuel_fuel_stable` below shows the fuel used by `searchCurrency` is
sufficient whenever `0 < lookback`. -/
def searchFuel (fetch : Nat → Except RunErr (Option BcmRateRow)) (lookback maxL : Nat) :
    Nat → Nat → Except RunErr (List Nat × Option BcmRateRow)
  | _, 0 => Except.ok ([], Option.none)
  | current, fuel + 1 =>
      if current ≤ maxL then
        match fetch current with
        | Except.error e => Except.error e
        | Except.ok (some r) => Except.ok ([current], some r)
        | Except.ok Option.none =>
            match searchFuel fetch lookback maxL (min (current + lookback) (maxL + 1)) fuel with
            | Except.error e => Except.error e
            | Except.ok (ws, res) => Except.ok (current :: ws, res)
      else Except.ok ([], Option.none)

/-- The per-currency window search: `current_lookback` starts at
`lookback_days` and the loop runs while `current_lookback <= max_lookback_days`. -/
def searchCurrency (fetch : Nat → Except RunErr (Option BcmRateRow)) (lookback maxL : Nat) :
    Except RunErr (List Nat × Option BcmRateRow) :=
  searchFuel fetch lookback maxL lookback (maxL + 1)

/-- Target state of `Currency.objects.update_or_create` (source lines 192-195). -/
structure CurrencyWrite where
  code : String
  label : String
deriving DecidableEq, Repr

/-- Target state of `Rate.objects.update_or_create` (source lines 200-207).
`price` keeps the selected decimal; the `float()` narrowing applied by the
source is not modelled (no claim depends on the float value). -/
structure RateWrite where
  currency : String
  date : PyDate
  unit : Int
  price : PyDecimal
deriving DecidableEq, Repr

/-- Observable outcome of a successful run: the upserts performed, the
per-currency no-data warnings (recorded by queried currency code), and the
`stored` counter. -/
structure RunResult where
  currencyWrites : List CurrencyWrite
  rateWrites : List RateWrite
  warnings : List String
  stored : Nat
deriving Repr

/-- One window query as performed by the run: the transport
(`_http_get_json`, an external collaborator supplied as `net`) either
fails or delivers a JSON payload, which `_fetch_latest_rate_in_range`
then validates and reduces. -/
def fetchStep (net : String → String → Nat → Except Unit PyVal)
    (apiBase ccy : String) (w : Nat) : Except RunErr (Option BcmRateRow) :=
  match net apiBase ccy w with
  | Except.error _ => Except.error RunErr.transportError
  | Except.ok payload => fetch_latest_rate_in_range payload ccy

/-- The body of `for ccy in quotes` (source lines 173-207) for one
currency: run the window search, then either record the warning
(`Except.ok none`) or compute the `Currency` and `Rate` upserts.
The `Currency` label is `latest.name_english or latest.currency`. -/
def processCurrency (net : String → String → Nat → Except Unit PyVal)
    (apiBase : String) (lookback : Nat) (ccy : String) :
    Except RunErr (Option (CurrencyWrite × RateWrite)) :=
  match searchCurrency (fetchStep net apiBase ccy) lookback 365 with
  | Except.error e => Except.error e
  | Except.ok (_, Option.none) => Except.ok Option.none
  | Except.ok (_, some latest) =>
      let label := if latest.name_english = "" then latest.currency else latest.name_english
      Except.ok (some (⟨latest.currency, label⟩,
        ⟨latest.currency, latest.rate_date, latest.weight, latest.value⟩))

/-- The currency loop of `handle`, accumulating writes, warnings and the
`stored` counter in processing order.  Any error aborts the whole run;
because results only exist in the `Except.ok` branch this is exactly the
all-or-nothing rollback of `@transaction.atomic`. -/
def runQuotes (net : String → String → Nat → Except Unit PyVal)
    (apiBase : String) (lookback : Nat) : List String → Except RunErr RunResult
  | [] => Except.ok ⟨[], [], [], 0⟩
  | ccy :: rest =>
      match processCurrency net apiBase lookback ccy with
      | Except.error e => Except.error e
      | Except.ok Option.none =>
          match runQuotes net apiBase lookback rest with
          | Except.error e => Except.error e
          | Except.ok r => Except.ok ⟨r.currencyWrites, r.rateWrites, ccy :: r.warnings, r.stored⟩
      | Except.ok (some (cw, rw)) =>
          match runQuotes net apiBase lookback rest with
          | Except.error e => Except.error e
          | Except.ok r => Except.ok ⟨cw :: r.currencyWrites, rw :: r.rateWrites, r.warnings, r.stored + 1⟩

/-- The command-line options as delivered by `add_arguments`
(source lines 122-150): `--quotes`, `--api-base`, `--to-date`,
`--lookback-days` and `--max-lookback-days`. -/
structure Opts where
  quotes : List String
  api_base : String
  to_date : String
  lookback_days : Int
  max_lookback_days : Int

/-- `Command.handle` (source lines 152-215).  Note line 163 of the source:
`max_lookback_days: int = 365` is assigned the constant 365 and
`opts["max_lookback_days"]` is never read. -/
def handle (net : String → String → Nat → Except Unit PyVal)
    (opts : Opts) (today : PyDate) : Except RunErr RunResult :=
  let quotes := opts.quotes.map pyUpper
  let api_base := pyStrip opts.api_base
  if api_base = "" then Except.error (RunErr.configError "Missing BCM API base URL.")
  else
    let to_date_str := pyStrip opts.to_date
    let to_dt? : Option PyDate :=
      if to_date_str ≠ "" then parseDateYYYYMMDD to_date_str else some today
    match to_dt? with
    | Option.none => Except.error (RunErr.valueError to_date_str)
    | some _to_dt =>
        let lookback_days := opts.lookback_days
        let max_lookback_days : Int := 365
        if lookback_days ≤ 0 then
          Except.error (RunErr.configError "--lookback-days must be > 0")
        else if max_lookback_days < lookback_days then
          Except.error (RunErr.configError "--max-lookback-days must be >= --lookback-days")
        else runQuotes net api_base lookback_days.toNat quotes

/-- Specification-side fold used to state the amended window-schedule
claim: scan a list of window sizes, stopping at the first query that
yields a row, and report the windows visited together with the result. -/
def firstHit (q : Nat → Option BcmRateRow) : List Nat → List Nat × Option BcmRateRow
  | [] => ([], Option.none)
  | w :: ws =>
      match q w with
      | some r => ([w], some r)
      | Option.none =>
          let p := firstHit q ws
          (w :: p.1, p.2)

/-- The full window schedule of `searchFuel` when every query comes back
empty. -/
def allWindows (lookback maxL : Nat) : Nat → Nat → List Nat
  | _, 0 => []
  | current, fuel + 1 =>
      if current ≤ maxL then
        current :: allWindows lookback maxL (min (current + lookback) (maxL + 1)) fuel
      else []

lemma searchFuel_of_gt (fetch : Nat → Except RunErr (Option BcmRateRow)) (l m c : Nat)
    (h : m < c) : ∀ f, searchFuel fetch l m c f = Except.ok ([], Option.none) := by
  intro f
  cases f with
  | zero => rfl
  | succ f => simp [searchFuel, Nat.not_le.mpr h]

lemma searchFuel_pure (l m : Nat) (q : Nat → Option BcmRateRow) :
    ∀ (f c : Nat), searchFuel (fun w => Except.ok (q w)) l m c f =
      Except.ok (firstHit q (allWindows l m c f)) := by
  intro f
  induction f with
  | zero => intro c; rfl
  | succ f ih =>
      intro c
      by_cases h : c ≤ m
      · simp only [searchFuel, allWindows, if_pos h]
        cases hq : q c with
        | none => simp [firstHit, hq, ih (min (c + l) (m + 1))]
        | some r => simp [firstHit, hq]
      · simp [searchFuel, allWindows, if_neg h, firstHit]

lemma searchFuel_length (fetch : Nat → Except RunErr (Option BcmRateRow)) (l m : Nat)
    (hl : 0 < l) :
    ∀ (f c : Nat) (ws : List Nat) (r : Option BcmRateRow),
      searchFuel fetch l m c f = Except.ok (ws, r) → ws.length ≤ (m + 1 - c) / l + 1 := by
  intro f
  induction f with
  | zero =>
      intro c ws r h
      simp only [searchFuel] at h
      obtain ⟨h1, -⟩ := Prod.mk.injEq .. ▸ (Except.ok.injEq .. ▸ h)
      simp [← h1]
  | succ f ih =>
      intro c ws r h
      by_cases hc : c ≤ m
      · simp only [searchFuel, if_pos hc] at h
        cases hfc : fetch c with
        | error e => rw [hfc] at h; exact absurd h (by simp)
        | ok o =>
            cases o with
            | some rr =>
                rw [hfc] at h
                simp only [Except.ok.injEq, Prod.mk.injEq] at h
                obtain ⟨h1, -⟩ := h
                simp [← h1]
            | none =>
                rw [hfc] at h
                cases hrec : searchFuel fetch l m (min (c + l) (m + 1)) f with
                | error e => rw [hrec] at h; exact absurd h (by simp)
                | ok p =>
                    obtain ⟨ws', r'⟩ := p
                    rw [hrec] at h
                    simp only [Except.ok.injEq, Prod.mk.injEq] at h
                    obtain ⟨h1, -⟩ := h
                    by_cases hcl : c + l ≤ m + 1
                    · rw [Nat.min_eq_left hcl] at hrec
                      have hlen := ih (c + l) ws' r' hrec
                      have hdiv : (m + 1 - c) / l = (m + 1 - (c + l)) / l + 1 := by
                        rw [Nat.div_eq_sub_div hl (by omega : l ≤ m + 1 - c),
                          (by omega : m + 1 - c - l = m + 1 - (c + l))]
                      rw [← h1]
                      simp only [List.length_cons]
                      omega
                    · rw [Nat.min_eq_right (by omega : m + 1 ≤ c + l)] at hrec
                      rw [searchFuel_of_gt fetch l m (m + 1) (Nat.lt_succ_self m) f] at hrec
                      simp only [Except.ok.injEq, Prod.mk.injEq] at hrec
                      obtain ⟨hw', -⟩ := hrec
                      rw [← h1, ← hw']
                      simp
      · simp only [searchFuel, if_neg hc] at h
        simp only [Except.ok.injEq, Prod.mk.injEq] at h
        obtain ⟨h1, -⟩ := h
        simp [← h1]

lemma searchFuel_stable (fetch : Nat → Except RunErr (Option BcmRateRow)) (l m : Nat)
    (hl : 0 < l) :
    ∀ (f c g : Nat), m + 2 - c ≤ f → m + 2 - c ≤ g →
      searchFuel fetch l m c f = searchFuel fetch l m c g := by
  intro f
  induction f with
  | zero =>
      intro c g hf hg
      have hc : m < c := by omega
      rw [searchFuel_of_gt fetch l m c hc, searchFuel_of_gt fetch l m c hc]
  | succ f ih =>
      intro c g hf hg
      rcases Nat.lt_or_ge m c with hc | hc
      · rw [searchFuel_of_gt fetch l m c hc, searchFuel_of_gt fetch l m c hc]
      · obtain ⟨g', rfl⟩ : ∃ g', g = g' + 1 := ⟨g - 1, by omega⟩
        simp only [searchFuel, if_pos (show c ≤ m from hc)]
        cases hfc : fetch c with
        | error e => rfl
        | ok o =>
            cases o with
            | some rr => rfl
            | none =>
                rcases Nat.lt_or_ge m (min (c + l) (m + 1)) with hcm | hcm
                · rw [searchFuel_of_gt fetch l m _ hcm f, searchFuel_of_gt fetch l m _ hcm g']
                · have hstep : c + 1 ≤ min (c + l) (m + 1) := by omega
                  rw [ih (min (c + l) (m + 1)) g' (by omega) (by omega)]

/-- C2 (counterexample): with `initialLookbackDays = 30` and
`maxLookbackDays = 365` and every query coming back empty, the loop of
`Command.handle` queries exactly the windows 30, 60, ..., 360 and never
performs a query with window 365: after the query at 360 the next window
is `min(360 + 30, 366) = 366 > 365` and the loop exits.  This falsifies
the claimed "exactly one final query with window equal to 365". -/
theorem fetch_rates_no_boundary_query :
    searchCurrency (fun _ => Except.ok (Option.none : Option BcmRateRow)) 30 365 =
      Except.ok ([30, 60, 90, 120, 150, 180, 210, 240, 270, 300, 330, 360], Option.none) ∧
    365 ∉ [30, 60, 90, 120, 150, 180, 210, 240, 270, 300, 330, 360] :=
  ⟨rfl, by decide⟩

/-- C2 (amended): with `initialLookbackDays = 30` and
`maxLookbackDays = 365`, the window search issues queries with window
sizes 30, 60, 90, ..., stopping at the first query that yields a valid
row; if no query yields a valid row it performs its final query with
window 360 (the largest multiple of 30 not exceeding 365 — there is no
boundary query at exactly 365) and returns NotFound. -/
theorem fetch_rates_window_schedule (q : Nat → Option BcmRateRow) :
    searchCurrency (fun w => Except.ok (q w)) 30 365 =
      Except.ok (firstHit q [30, 60, 90, 120, 150, 180, 210, 240, 270, 300, 330, 360]) := by
  rw [searchCurrency, searchFuel_pure,
    (by decide : allWindows 30 365 30 (365 + 1) =
      [30, 60, 90, 120, 150, 180, 210, 240, 270, 300, 330, 360])]

/-- C10: for every positive initial lookback `l` and every maximum
lookback `m`, the backward-expanding window loop terminates — the fuel
`m + 1` given to it by `searchCurrency` is already enough, so any larger
fuel computes the same result — and it performs at most
`ceil(m / l) + 1 = (m + l - 1) / l + 1` queries. -/
theorem fetch_rates_window_loop_bound (fetch : Nat → Except RunErr (Option BcmRateRow))
    (l m : Nat) (hl : 0 < l) :
    (∀ g, m + 1 ≤ g → searchFuel fetch l m l g = searchCurrency fetch l m) ∧
    (∀ ws r, searchCurrency fetch l m = Except.ok (ws, r) →
      ws.length ≤ (m + l - 1) / l + 1) := by
  constructor
  · intro g hg
    rw [searchCurrency]
    exact searchFuel_stable fetch l m hl g l (m + 1) (by omega) (by omega)
  · intro ws r h
    have hlen := searchFuel_length fetch l m hl (m + 1) l ws r h
    have hmono : (m + 1 - l) / l ≤ (m + l - 1) / l :=
      Nat.div_le_div_right (by omega)
    omega

/-- Witness for C10 at `l = 30`, `m = 365` with an always-empty source. -/
theorem fetch_rates_window_loop_bound_witness :
    0 < 30 ∧
    ((∀ g, 365 + 1 ≤ g →
        searchFuel (fun _ => Except.ok (Option.none : Option BcmRateRow)) 30 365 30 g =
          searchCurrency (fun _ => Except.ok (Option.none : Option BcmRateRow)) 30 365) ∧
     (∀ ws r,
        searchCurrency (fun _ => Except.ok (Option.none : Option BcmRateRow)) 30 365 =
          Except.ok (ws, r) →
        ws.length ≤ (365 + 30 - 1) / 30 + 1)) :=
  ⟨by decide,
   fetch_rates_window_loop_bound (fun _ => Except.ok Option.none) 30 365 (by decide)⟩

lemma PyDate.ltb_irrefl (a : PyDate) : PyDate.ltb a a = false := by
  simp [PyDate.ltb]

lemma PyDate.ltb_trans {a b c : PyDate} (h1 : PyDate.ltb a b = true)
    (h2 : PyDate.ltb b c = true) : PyDate.ltb a c = true := by
  obtain ⟨y1, m1, d1⟩ := a
  obtain ⟨y2, m2, d2⟩ := b
  obtain ⟨y3, m3, d3⟩ := c
  simp [PyDate.ltb] at *
  omega

lemma PyDate.nltb_trans {a b c : PyDate} (h1 : PyDate.ltb a b = false)
    (h2 : PyDate.ltb b c = false) : PyDate.ltb a c = false := by
  obtain ⟨y1, m1, d1⟩ := a
  obtain ⟨y2, m2, d2⟩ := b
  obtain ⟨y3, m3, d3⟩ := c
  simp [PyDate.ltb] at *
  omega

lemma PyDate.ltb_of_ltb_of_nltb {a b c : PyDate} (h1 : PyDate.ltb a b = true)
    (h2 : PyDate.ltb c b = false) : PyDate.ltb a c = true := by
  obtain ⟨y1, m1, d1⟩ := a
  obtain ⟨y2, m2, d2⟩ := b
  obtain ⟨y3, m3, d3⟩ := c
  simp [PyDate.ltb] at *
  omega

lemma PyDate.nltb_of_nltb_of_ltb {r a b : PyDate} (h1 : PyDate.ltb r a = false)
    (h2 : PyDate.ltb b a = true) : PyDate.ltb r b = false := by
  obtain ⟨y1, m1, d1⟩ := r
  obtain ⟨y2, m2, d2⟩ := a
  obtain ⟨y3, m3, d3⟩ := b
  simp [PyDate.ltb] at *
  omega

lemma PyDate.ltb_of_nltb_of_ne {a b : PyDate} (h : PyDate.ltb a b = false)
    (hne : b ≠ a) : PyDate.ltb b a = true := by
  obtain ⟨y1, m1, d1⟩ := a
  obtain ⟨y2, m2, d2⟩ := b
  simp [PyDate.ltb, PyDate.mk.injEq] at *
  omega

lemma foldl_max_mem : ∀ (l : List BcmRateRow) (b : BcmRateRow),
    l.foldl (fun best x => if PyDate.ltb best.rate_date x.rate_date then x else best) b = b ∨
    l.foldl (fun best x => if PyDate.ltb best.rate_date x.rate_date then x else best) b ∈ l := by
  intro l
  induction l with
  | nil => intro b; left; rfl
  | cons a l ih =>
      intro b
      simp only [List.foldl_cons]
      rcases ih (if PyDate.ltb b.rate_date a.rate_date then a else b) with h | h
      · rw [h]
        by_cases hba : PyDate.ltb b.rate_date a.rate_date = true
        · right; simp [hba]
        · left; simp [Bool.not_eq_true] at hba; simp [hba]
      · right; exact List.mem_cons_of_mem a h

lemma foldl_max_ge : ∀ (l : List BcmRateRow) (b : BcmRateRow),
    PyDate.ltb
      (l.foldl (fun best x => if PyDate.ltb best.rate_date x.rate_date then x else best)
        b).rate_date b.rate_date = false ∧
    ∀ x ∈ l,
      PyDate.ltb
        (l.foldl (fun best x => if PyDate.ltb best.rate_date x.rate_date then x else best)
          b).rate_date x.rate_date = false := by
  intro l
  induction l with
  | nil => intro b; exact ⟨PyDate.ltb_irrefl b.rate_date, by simp⟩
  | cons a l ih =>
      intro b
      simp only [List.foldl_cons]
      by_cases hba : PyDate.ltb b.rate_date a.rate_date = true
      · rw [if_pos hba]
        obtain ⟨h1, h2⟩ := ih a
        refine ⟨PyDate.nltb_of_nltb_of_ltb h1 hba, ?_⟩
        intro x hx
        rcases List.mem_cons.mp hx with rfl | hx
        · exact h1
        · exact h2 x hx
      · simp only [Bool.not_eq_true] at hba
        rw [if_neg (by simp [hba])]
        obtain ⟨h1, h2⟩ := ih b
        refine ⟨h1, ?_⟩
        intro x hx
        rcases List.mem_cons.mp hx with rfl | hx
        · exact PyDate.nltb_trans h1 hba
        · exact h2 x hx

lemma PyDate.ltb_of_nltb_of_ltb {a b r : PyDate} (h1 : PyDate.ltb b a = false)
    (h2 : PyDate.ltb b r = true) : PyDate.ltb a r = true := by
  obtain ⟨y1, m1, d1⟩ := a
  obtain ⟨y2, m2, d2⟩ := b
  obtain ⟨y3, m3, d3⟩ := r
  simp [PyDate.ltb] at *
  omega

lemma foldl_first_max : ∀ (l : List BcmRateRow) (b : BcmRateRow),
    l.foldl (fun best x => if PyDate.ltb best.rate_date x.rate_date then x else best) b = b ∨
    ∃ pre post, l = pre ++
        (l.foldl (fun best x => if PyDate.ltb best.rate_date x.rate_date then x else best)
          b) :: post ∧
      PyDate.ltb b.rate_date
        (l.foldl (fun best x => if PyDate.ltb best.rate_date x.rate_date then x else best)
          b).rate_date = true ∧
      ∀ x ∈ pre,
        PyDate.ltb x.rate_date
          (l.foldl (fun best x => if PyDate.ltb best.rate_date x.rate_date then x else best)
            b).rate_date = true := by
  intro l
  induction l with
  | nil => intro b; left; rfl
  | cons a l ih =>
      intro b
      simp only [List.foldl_cons]
      by_cases hba : PyDate.ltb b.rate_date a.rate_date = true
      · rw [if_pos hba]
        rcases ih a with h | ⟨pre, post, hsplit, hlt, hpre⟩
        · right
          refine ⟨[], l, ?_, ?_, by simp⟩
          · rw [h]; simp
          · rw [h]; exact hba
        · right
          refine ⟨a :: pre, post, ?_, PyDate.ltb_trans hba hlt, ?_⟩
          · rw [List.cons_append, ← hsplit]
          · intro x hx
            rcases List.mem_cons.mp hx with rfl | hx
            · exact hlt
            · exact hpre x hx
      · simp only [Bool.not_eq_true] at hba
        rw [if_neg (by simp [hba])]
        rcases ih b with h | ⟨pre, post, hsplit, hlt, hpre⟩
        · left; exact h
        · right
          refine ⟨a :: pre, post, ?_, hlt, ?_⟩
          · rw [List.cons_append, ← hsplit]
          · intro x hx
            rcases List.mem_cons.mp hx with rfl | hx
            · exact PyDate.ltb_of_nltb_of_ltb hba hlt
            · exact hpre x hx

lemma maxByRateDate_mem {rows : List BcmRateRow} {sel : BcmRateRow}
    (h : maxByRateDate rows = some sel) : sel ∈ rows := by
  cases rows with
  | nil => simp [maxByRateDate] at h
  | cons r rs =>
      simp only [maxByRateDate, Option.some.injEq] at h
      rcases foldl_max_mem rs r with hm | hm
      · rw [hm] at h; rw [← h]; exact List.mem_cons_self r rs
      · rw [← h]; exact List.mem_cons_of_mem r hm

lemma maxByRateDate_max {rows : List BcmRateRow} {sel : BcmRateRow}
    (h : maxByRateDate rows = some sel) :
    ∀ x ∈ rows, PyDate.ltb sel.rate_date x.rate_date = false := by
  cases rows with
  | nil => simp [maxByRateDate] at h
  | cons r rs =>
      simp only [maxByRateDate, Option.some.injEq] at h
      obtain ⟨h1, h2⟩ := foldl_max_ge rs r
      intro x hx
      rcases List.mem_cons.mp hx with rfl | hx
      · rw [← h]; exact h1
      · rw [← h]; exact h2 x hx

lemma maxByRateDate_first {rows : List BcmRateRow} {sel : BcmRateRow}
    (h : maxByRateDate rows = some sel) :
    ∃ pre post, rows = pre ++ sel :: post ∧
      ∀ x ∈ pre, PyDate.ltb x.rate_date sel.rate_date = true := by
  cases rows with
  | nil => simp [maxByRateDate] at h
  | cons r rs =>
      simp only [maxByRateDate, Option.some.injEq] at h
      rcases foldl_first_max rs r with hm | ⟨pre, post, hsplit, hlt, hpre⟩
      · refine ⟨[], rs, ?_, by simp⟩
        rw [← h, hm]
        simp
      · refine ⟨r :: pre, post, ?_, ?_⟩
        · rw [← h, List.cons_append, ← hsplit]
        · intro x hx
          rcases List.mem_cons.mp hx with rfl | hx
          · rw [← h]; exact hlt
          · rw [← h]; exact hpre x hx

lemma processItem_dict (cur : String) (kvs : List (String × PyVal)) :
    processItem cur (PyVal.dict kvs) =
      if pyUpper (pyStrOf (dictGet kvs "currency" (PyVal.str ""))) ≠ pyUpper cur then
        Except.ok Option.none
      else if !pyTruthy (dictGet kvs "date" PyVal.none) ||
          isNoneB (dictGet kvs "value" PyVal.none) then
        Except.ok Option.none
      else
        match parseDateYYYYMMDD (pyStrOf (dictGet kvs "date" PyVal.none)) with
        | Option.none =>
            Except.error (RunErr.valueError (pyStrOf (dictGet kvs "date" PyVal.none)))
        | some d =>
            match to_decimal (dictGet kvs "value" PyVal.none) with
            | Except.error e => Except.error e
            | Except.ok v =>
                if effectiveWeight (dictGet kvs "weight" (PyVal.int 1)) ≤ 0 then
                  Except.ok Option.none
                else
                  Except.ok (some ⟨d, pyUpper (pyStrOf (dictGet kvs "currency" (PyVal.str ""))),
                    v, effectiveWeight (dictGet kvs "weight" (PyVal.int 1)),
                    pyStrip (pyStrOf (pyOr (dictGet kvs "nameEnglish" (PyVal.str "")) (PyVal.str "")))⟩) :=
  rfl

lemma processItem_some_currency {cur : String} {item : PyVal} {r : BcmRateRow}
    (h : processItem cur item = Except.ok (some r)) : r.currency = pyUpper cur := by
  cases item with
  | dict kvs =>
      rw [processItem_dict] at h
      repeat' split at h
      all_goals simp_all
      rw [← h]
  | none => simp [processItem] at h
  | bool b => simp [processItem] at h
  | int n => simp [processItem] at h
  | str s => simp [processItem] at h
  | list xs => simp [processItem] at h

lemma collectRows_currency {cur : String} {items : List PyVal} {rows : List BcmRateRow}
    (h : collectRows cur items = Except.ok rows) :
    ∀ r ∈ rows, r.currency = pyUpper cur := by
  induction items generalizing rows with
  | nil =>
      simp only [collectRows, Except.ok.injEq] at h
      rw [← h]
      simp
  | cons item items ih =>
      simp only [collectRows] at h
      cases hp : processItem cur item with
      | error e => rw [hp] at h; simp at h
      | ok o =>
          cases o with
          | none => rw [hp] at h; exact ih h
          | some r =>
              rw [hp] at h
              cases hrest : collectRows cur items with
              | error e => rw [hrest] at h; simp at h
              | ok rs =>
                  rw [hrest] at h
                  simp only [Except.ok.injEq] at h
                  rw [← h]
                  intro x hx
                  rcases List.mem_cons.mp hx with rfl | hx
                  · exact processItem_some_currency hp
                  · exact ih hrest x hx

lemma processItem_skip_collect {cur : String} {item : PyVal}
    (h : processItem cur item = Except.ok Option.none) :
    ∀ pre post, collectRows cur (pre ++ item :: post) = collectRows cur (pre ++ post) := by
  intro pre
  induction pre with
  | nil =>
      intro post
      simp only [List.nil_append, collectRows, h]
  | cons a pre ih =>
      intro post
      simp only [List.cons_append, collectRows, List.append_eq]
      rw [ih post]

/-- C7: a record whose currency code, upper-cased, differs from the queried
currency upper-cased is skipped by the `ccy != currency.upper()` guard —
it never becomes a candidate row and never raises — and removing it from
the payload leaves the accumulated row list unchanged. -/
theorem fetch_rates_currency_filter (cur : String) (kvs : List (String × PyVal))
    (hm : pyUpper (pyStrOf (dictGet kvs "currency" (PyVal.str ""))) ≠ pyUpper cur) :
    processItem cur (PyVal.dict kvs) = Except.ok Option.none ∧
    ∀ pre post,
      collectRows cur (pre ++ PyVal.dict kvs :: post) = collectRows cur (pre ++ post) := by
  have h1 : processItem cur (PyVal.dict kvs) = Except.ok Option.none := by
    rw [processItem_dict, if_pos hm]
  exact ⟨h1, processItem_skip_collect h1⟩

/-- Witness for C7: an otherwise well-formed EUR record is excluded when
USD is queried. -/
theorem fetch_rates_currency_filter_witness :
    pyUpper (pyStrOf (dictGet [("currency", PyVal.str "EUR"), ("date", PyVal.str "2024-03-08"),
        ("value", PyVal.str "36.5"), ("weight", PyVal.int 1)] "currency"
        (PyVal.str ""))) ≠ pyUpper "USD" ∧
    (processItem "USD" (PyVal.dict [("currency", PyVal.str "EUR"),
        ("date", PyVal.str "2024-03-08"), ("value", PyVal.str "36.5"),
        ("weight", PyVal.int 1)]) = Except.ok Option.none ∧
     ∀ pre post,
       collectRows "USD" (pre ++ PyVal.dict [("currency", PyVal.str "EUR"),
         ("date", PyVal.str "2024-03-08"), ("value", PyVal.str "36.5"),
         ("weight", PyVal.int 1)] :: post) = collectRows "USD" (pre ++ post)) :=
  ⟨by decide,
   fetch_rates_currency_filter "USD" [("currency", PyVal.str "EUR"),
     ("date", PyVal.str "2024-03-08"), ("value", PyVal.str "36.5"),
     ("weight", PyVal.int 1)] (by decide)⟩

/-- C3 (counterexample): a record whose `value` field is present but equal
to the empty string is NOT skipped: the guard only tests `v_raw is None`,
so `_to_decimal("")` is reached and raises `CommandError` — a hard error,
not a skip, contradicting the claim for the "empty value" case it
explicitly includes. -/
theorem fetch_rates_empty_value_error :
    fetch_latest_rate_in_range
        (PyVal.list [PyVal.dict [("currency", PyVal.str "USD"),
          ("date", PyVal.str "2024-03-08"), ("value", PyVal.str "")]]) "USD" =
      Except.error (RunErr.commandError (PyVal.str "")) ∧
    fetch_latest_rate_in_range
        (PyVal.list [PyVal.dict [("currency", PyVal.str "USD"),
          ("date", PyVal.str "2024-03-08"), ("value", PyVal.str "")]]) "USD" ≠
      Except.ok Option.none :=
  ⟨rfl, fun h => nomatch h⟩

/-- C3 (amended): a record whose `date` field is missing or falsy (absent
key, JSON null, or empty string) or whose `value` field is missing or JSON
null is skipped without error and contributes no candidate row.  (A
present, non-null but empty-string `value` is not covered: it causes a
hard `CommandError`, see the counterexample.) -/
theorem fetch_rates_missing_field_skipped (cur : String) (kvs : List (String × PyVal))
    (h : pyTruthy (dictGet kvs "date" PyVal.none) = false ∨
         dictGet kvs "value" PyVal.none = PyVal.none) :
    processItem cur (PyVal.dict kvs) = Except.ok Option.none ∧
    ∀ pre post,
      collectRows cur (pre ++ PyVal.dict kvs :: post) = collectRows cur (pre ++ post) := by
  have h1 : processItem cur (PyVal.dict kvs) = Except.ok Option.none := by
    rw [processItem_dict]
    by_cases hm : pyUpper (pyStrOf (dictGet kvs "currency" (PyVal.str ""))) ≠ pyUpper cur
    · rw [if_pos hm]
    · rw [if_neg hm]
      have hc : (!pyTruthy (dictGet kvs "date" PyVal.none) ||
          isNoneB (dictGet kvs "value" PyVal.none)) = true := by
        rcases h with h | h
        · simp [h]
        · rw [h]; simp [isNoneB]
      rw [if_pos hc]
  exact ⟨h1, processItem_skip_collect h1⟩

/-- Witness for C3 (amended): a record with no `date` key is skipped. -/
theorem fetch_rates_missing_field_skipped_witness :
    (pyTruthy (dictGet [("currency", PyVal.str "USD"), ("value", PyVal.str "3")]
        "date" PyVal.none) = false ∨
     dictGet [("currency", PyVal.str "USD"), ("value", PyVal.str "3")]
        "value" PyVal.none = PyVal.none) ∧
    (processItem "USD" (PyVal.dict [("currency", PyVal.str "USD"),
        ("value", PyVal.str "3")]) = Except.ok Option.none ∧
     ∀ pre post,
       collectRows "USD" (pre ++ PyVal.dict [("currency", PyVal.str "USD"),
         ("value", PyVal.str "3")] :: post) = collectRows "USD" (pre ++ post)) :=
  ⟨Or.inl rfl,
   fetch_rates_missing_field_skipped "USD"
     [("currency", PyVal.str "USD"), ("value", PyVal.str "3")] (Or.inl rfl)⟩

/-- C6: a record with `weight` absent gets effective weight 1 (the
`item.get("weight", 1)` default); a record whose weight value cannot be
parsed by `int()` gets effective weight 1 (the `except` fallback); and a
record whose parsed weight is `<= 0` is skipped by the `w <= 0` guard
without raising, provided its other fields pass validation. -/
theorem fetch_rates_weight_default (kvs : List (String × PyVal)) (x : PyVal) (cur : String)
    (habs : kvs.lookup "weight" = Option.none)
    (hnn : pyIntOf x = Option.none) :
    effectiveWeight (dictGet kvs "weight" (PyVal.int 1)) = 1 ∧
    effectiveWeight x = 1 ∧
    (∀ kvs2 : List (String × PyVal),
      pyUpper (pyStrOf (dictGet kvs2 "currency" (PyVal.str ""))) = pyUpper cur →
      pyTruthy (dictGet kvs2 "date" PyVal.none) = true →
      isNoneB (dictGet kvs2 "value" PyVal.none) = false →
      (parseDateYYYYMMDD (pyStrOf (dictGet kvs2 "date" PyVal.none))).isSome = true →
      decValid (pyStrOf (dictGet kvs2 "value" PyVal.none)) = true →
      effectiveWeight (dictGet kvs2 "weight" (PyVal.int 1)) ≤ 0 →
      processItem cur (PyVal.dict kvs2) = Except.ok Option.none) := by
  refine ⟨?_, ?_, ?_⟩
  · simp [dictGet, habs, effectiveWeight, pyIntOf]
  · cases x <;> simp_all [effectiveWeight, pyIntOf]
  · intro kvs2 hccy hd hv hdp hvp hw
    rw [processItem_dict, if_neg (by simp [hccy]), if_neg (by simp [hd, hv])]
    obtain ⟨d, hdd⟩ := Option.isSome_iff_exists.mp hdp
    rw [hdd]
    simp [to_decimal, hvp, hw]

/-- Witness for C6: a record with no weight key, the non-numeric weight
string "abc", and a record with weight -3 that is excluded. -/
theorem fetch_rates_weight_default_witness :
    ([("currency", PyVal.str "USD")] : List (String × PyVal)).lookup "weight" =
      Option.none ∧
    pyIntOf (PyVal.str "abc") = Option.none ∧
    (effectiveWeight (dictGet [("currency", PyVal.str "USD")] "weight"
        (PyVal.int 1)) = 1 ∧
     effectiveWeight (PyVal.str "abc") = 1 ∧
     (∀ kvs2 : List (String × PyVal),
       pyUpper (pyStrOf (dictGet kvs2 "currency" (PyVal.str ""))) = pyUpper "USD" →
       pyTruthy (dictGet kvs2 "date" PyVal.none) = true →
       isNoneB (dictGet kvs2 "value" PyVal.none) = false →
       (parseDateYYYYMMDD (pyStrOf (dictGet kvs2 "date" PyVal.none))).isSome = true →
       decValid (pyStrOf (dictGet kvs2 "value" PyVal.none)) = true →
       effectiveWeight (dictGet kvs2 "weight" (PyVal.int 1)) ≤ 0 →
       processItem "USD" (PyVal.dict kvs2) = Except.ok Option.none)) :=
  ⟨rfl, rfl,
   fetch_rates_weight_default [("currency", PyVal.str "USD")] (PyVal.str "abc") "USD"
     rfl rfl⟩

/-- C4: whenever validation of a payload succeeds with a non-empty list of
surviving rows, `_fetch_latest_rate_in_range` returns one of those rows,
no surviving row has a strictly later date than it, and every surviving
row with a different date has a strictly earlier one — i.e. the selected
row has the strictly latest date among valid rows. -/
theorem fetch_rates_selects_latest (cur : String) (items : List PyVal)
    (rows : List BcmRateRow)
    (hrows : collectRows cur items = Except.ok rows) (hne : rows ≠ []) :
    ∃ sel, fetch_latest_rate_in_range (PyVal.list items) cur = Except.ok (some sel) ∧
      sel ∈ rows ∧
      (∀ r ∈ rows, PyDate.ltb sel.rate_date r.rate_date = false) ∧
      (∀ r ∈ rows, r.rate_date ≠ sel.rate_date →
        PyDate.ltb r.rate_date sel.rate_date = true) := by
  have hitems : items ≠ [] := by
    intro hi
    subst hi
    simp only [collectRows, Except.ok.injEq] at hrows
    exact hne hrows.symm
  have hfe : fetch_latest_rate_in_range (PyVal.list items) cur =
      Except.ok (maxByRateDate rows) := by
    simp only [fetch_latest_rate_in_range]
    rw [if_neg (by simp [List.isEmpty_iff, hitems]), hrows]
  obtain ⟨sel, hsel⟩ : ∃ sel, maxByRateDate rows = some sel := by
    cases rows with
    | nil => exact absurd rfl hne
    | cons r rs => exact ⟨_, rfl⟩
  refine ⟨sel, by rw [hfe, hsel], maxByRateDate_mem hsel, maxByRateDate_max hsel, ?_⟩
  intro x hx hne2
  exact PyDate.ltb_of_nltb_of_ne (maxByRateDate_max hsel x hx) hne2

/-- Witness for C4: two valid USD rows dated 2024-03-05 and 2024-03-07;
the 2024-03-07 row is selected. -/
theorem fetch_rates_selects_latest_witness :
    collectRows "USD"
        [PyVal.dict [("currency", PyVal.str "USD"), ("date", PyVal.str "2024-03-05"),
           ("value", PyVal.str "36.0")],
         PyVal.dict [("currency", PyVal.str "USD"), ("date", PyVal.str "2024-03-07"),
           ("value", PyVal.str "36.5")]] =
      Except.ok [⟨⟨2024, 3, 5⟩, "USD", ⟨"36.0"⟩, 1, ""⟩,
        ⟨⟨2024, 3, 7⟩, "USD", ⟨"36.5"⟩, 1, ""⟩] ∧
    ([⟨⟨2024, 3, 5⟩, "USD", ⟨"36.0"⟩, 1, ""⟩,
      ⟨⟨2024, 3, 7⟩, "USD", ⟨"36.5"⟩, 1, ""⟩] : List BcmRateRow) ≠ [] ∧
    (∃ sel, fetch_latest_rate_in_range
        (PyVal.list [PyVal.dict [("currency", PyVal.str "USD"),
           ("date", PyVal.str "2024-03-05"), ("value", PyVal.str "36.0")],
         PyVal.dict [("currency", PyVal.str "USD"), ("date", PyVal.str "2024-03-07"),
           ("value", PyVal.str "36.5")]]) "USD" = Except.ok (some sel) ∧
      sel ∈ [⟨⟨2024, 3, 5⟩, "USD", ⟨"36.0"⟩, 1, ""⟩,
        ⟨⟨2024, 3, 7⟩, "USD", ⟨"36.5"⟩, 1, ""⟩] ∧
      (∀ r ∈ [⟨⟨2024, 3, 5⟩, "USD", ⟨"36.0"⟩, 1, ""⟩,
        (⟨⟨2024, 3, 7⟩, "USD", ⟨"36.5"⟩, 1, ""⟩ : BcmRateRow)],
        PyDate.ltb sel.rate_date r.rate_date = false) ∧
      (∀ r ∈ [⟨⟨2024, 3, 5⟩, "USD", ⟨"36.0"⟩, 1, ""⟩,
        (⟨⟨2024, 3, 7⟩, "USD", ⟨"36.5"⟩, 1, ""⟩ : BcmRateRow)],
        r.rate_date ≠ sel.rate_date →
        PyDate.ltb r.rate_date sel.rate_date = true)) :=
  ⟨rfl, by decide,
   fetch_rates_selects_latest "USD" _ _ rfl (by decide)⟩

/-- C9: row selection is deterministic and resolves ties in favour of the
earliest record in payload order: the selected row is a maximum-date row,
and it occurs in the surviving-row list (which preserves payload order)
with every earlier surviving row strictly older — so among rows sharing
the maximum date it is the first one. -/
theorem fetch_rates_tie_first (cur : String) (items : List PyVal)
    (rows : List BcmRateRow) (sel : BcmRateRow)
    (hrows : collectRows cur items = Except.ok rows)
    (hsel : fetch_latest_rate_in_range (PyVal.list items) cur = Except.ok (some sel)) :
    (∀ r ∈ rows, PyDate.ltb sel.rate_date r.rate_date = false) ∧
    ∃ pre post, rows = pre ++ sel :: post ∧
      ∀ x ∈ pre, PyDate.ltb x.rate_date sel.rate_date = true := by
  have hmax : maxByRateDate rows = some sel := by
    simp only [fetch_latest_rate_in_range] at hsel
    by_cases hi : items.isEmpty = true
    · rw [if_pos hi] at hsel; simp at hsel
    · rw [if_neg hi, hrows] at hsel
      simpa using hsel
  obtain ⟨pre, post, hsplit, hpre⟩ := maxByRateDate_first hmax
  exact ⟨maxByRateDate_max hmax, pre, post, hsplit, hpre⟩

/-- Witness for C9: two valid USD rows share the date 2024-03-07; the
first one in payload order is selected. -/
theorem fetch_rates_tie_first_witness :
    collectRows "USD"
        [PyVal.dict [("currency", PyVal.str "USD"), ("date", PyVal.str "2024-03-07"),
           ("value", PyVal.str "1")],
         PyVal.dict [("currency", PyVal.str "USD"), ("date", PyVal.str "2024-03-07"),
           ("value", PyVal.str "2")]] =
      Except.ok [⟨⟨2024, 3, 7⟩, "USD", ⟨"1"⟩, 1, ""⟩,
        ⟨⟨2024, 3, 7⟩, "USD", ⟨"2"⟩, 1, ""⟩] ∧
    fetch_latest_rate_in_range
        (PyVal.list [PyVal.dict [("currency", PyVal.str "USD"),
           ("date", PyVal.str "2024-03-07"), ("value", PyVal.str "1")],
         PyVal.dict [("currency", PyVal.str "USD"), ("date", PyVal.str "2024-03-07"),
           ("value", PyVal.str "2")]]) "USD" =
      Except.ok (some ⟨⟨2024, 3, 7⟩, "USD", ⟨"1"⟩, 1, ""⟩) ∧
    ((∀ r ∈ [⟨⟨2024, 3, 7⟩, "USD", ⟨"1"⟩, 1, ""⟩,
        (⟨⟨2024, 3, 7⟩, "USD", ⟨"2"⟩, 1, ""⟩ : BcmRateRow)],
        PyDate.ltb (⟨⟨2024, 3, 7⟩, "USD", ⟨"1"⟩, 1, ""⟩ : BcmRateRow).rate_date
          r.rate_date = false) ∧
     ∃ pre post, ([⟨⟨2024, 3, 7⟩, "USD", ⟨"1"⟩, 1, ""⟩,
         ⟨⟨2024, 3, 7⟩, "USD", ⟨"2"⟩, 1, ""⟩] : List BcmRateRow) =
           pre ++ (⟨⟨2024, 3, 7⟩, "USD", ⟨"1"⟩, 1, ""⟩ : BcmRateRow) :: post ∧
       ∀ x ∈ pre,
         PyDate.ltb x.rate_date
           (⟨⟨2024, 3, 7⟩, "USD", ⟨"1"⟩, 1, ""⟩ : BcmRateRow).rate_date = true) :=
  ⟨rfl, rfl,
   fetch_rates_tie_first "USD"
     [PyVal.dict [("currency", PyVal.str "USD"), ("date", PyVal.str "2024-03-07"),
        ("value", PyVal.str "1")],
      PyVal.dict [("currency", PyVal.str "USD"), ("date", PyVal.str "2024-03-07"),
        ("value", PyVal.str "2")]]
     [⟨⟨2024, 3, 7⟩, "USD", ⟨"1"⟩, 1, ""⟩, ⟨⟨2024, 3, 7⟩, "USD", ⟨"2"⟩, 1, ""⟩]
     ⟨⟨2024, 3, 7⟩, "USD", ⟨"1"⟩, 1, ""⟩ rfl rfl⟩

lemma collectRows_cons (cur : String) (a : PyVal) (items : List PyVal) :
    collectRows cur (a :: items) =
      match processItem cur a with
      | Except.error e => Except.error e
      | Except.ok Option.none => collectRows cur items
      | Except.ok (some r) =>
          match collectRows cur items with
          | Except.error e => Except.error e
          | Except.ok rs => Except.ok (r :: rs) :=
  rfl

lemma collectRows_error_of_mem {cur : String} {items : List PyVal} {item : PyVal}
    (hmem : item ∈ items) {e : RunErr} (herr : processItem cur item = Except.error e) :
    ∃ e2, collectRows cur items = Except.error e2 := by
  induction items with
  | nil => simp at hmem
  | cons a rest ih =>
      rcases List.mem_cons.mp hmem with rfl | hmem
      · exact ⟨e, by rw [collectRows_cons, herr]⟩
      · cases hp : processItem cur a with
        | error e2 => exact ⟨e2, by rw [collectRows_cons, hp]⟩
        | ok o =>
            obtain ⟨e2, he2⟩ := ih hmem
            cases o with
            | none => exact ⟨e2, by rw [collectRows_cons, hp, he2]⟩
            | some r => exact ⟨e2, by rw [collectRows_cons, hp, he2]⟩

lemma searchFuel_succ (fetch : Nat → Except RunErr (Option BcmRateRow)) (l m c f : Nat) :
    searchFuel fetch l m c (f + 1) =
      if c ≤ m then
        match fetch c with
        | Except.error e => Except.error e
        | Except.ok (some r) => Except.ok ([c], some r)
        | Except.ok Option.none =>
            match searchFuel fetch l m (min (c + l) (m + 1)) f with
            | Except.error e => Except.error e
            | Except.ok (ws, res) => Except.ok (c :: ws, res)
      else Except.ok ([], Option.none) :=
  rfl

lemma searchCurrency_error_first {fetch : Nat → Except RunErr (Option BcmRateRow)}
    {lb : Nat} {e : RunErr} (hlb2 : lb ≤ 365) (h : fetch lb = Except.error e) :
    searchCurrency fetch lb 365 = Except.error e := by
  rw [searchCurrency, searchFuel_succ, if_pos hlb2, h]

lemma processCurrency_error {net : String → String → Nat → Except Unit PyVal}
    {apiBase : String} {lb : Nat} {ccy : String} {e : RunErr}
    (h : searchCurrency (fetchStep net apiBase ccy) lb 365 = Except.error e) :
    processCurrency net apiBase lb ccy = Except.error e := by
  simp only [processCurrency]
  rw [h]

lemma runQuotes_cons (net : String → String → Nat → Except Unit PyVal)
    (apiBase : String) (lb : Nat) (ccy : String) (rest : List String) :
    runQuotes net apiBase lb (ccy :: rest) =
      match processCurrency net apiBase lb ccy with
      | Except.error e => Except.error e
      | Except.ok Option.none =>
          match runQuotes net apiBase lb rest with
          | Except.error e => Except.error e
          | Except.ok r => Except.ok ⟨r.currencyWrites, r.rateWrites, ccy :: r.warnings, r.stored⟩
      | Except.ok (some (cw, rwr)) =>
          match runQuotes net apiBase lb rest with
          | Except.error e => Except.error e
          | Except.ok r =>
              Except.ok ⟨cw :: r.currencyWrites, rwr :: r.rateWrites, r.warnings, r.stored + 1⟩ :=
  rfl

lemma runQuotes_error_of_mem {net : String → String → Nat → Except Unit PyVal}
    {apiBase : String} {lb : Nat} {q : String} {qs : List String}
    (hq : q ∈ qs) {e : RunErr} (h : processCurrency net apiBase lb q = Except.error e) :
    ∃ e2, runQuotes net apiBase lb qs = Except.error e2 := by
  induction qs with
  | nil => simp at hq
  | cons a rest ih =>
      rcases List.mem_cons.mp hq with rfl | hq
      · exact ⟨e, by rw [runQuotes_cons, h]⟩
      · cases hp : processCurrency net apiBase lb a with
        | error e2 => exact ⟨e2, by rw [runQuotes_cons, hp]⟩
        | ok o =>
            obtain ⟨e2, he2⟩ := ih hq
            cases o with
            | none => exact ⟨e2, by rw [runQuotes_cons, hp, he2]⟩
            | some p =>
                obtain ⟨cw, rwr⟩ := p
                exact ⟨e2, by rw [runQuotes_cons, hp, he2]⟩

lemma handle_unfold (net : String → String → Nat → Except Unit PyVal)
    (opts : Opts) (today : PyDate) :
    handle net opts today =
      if pyStrip opts.api_base = "" then
        Except.error (RunErr.configError "Missing BCM API base URL.")
      else
        match (if pyStrip opts.to_date ≠ "" then parseDateYYYYMMDD (pyStrip opts.to_date)
            else some today) with
        | Option.none => Except.error (RunErr.valueError (pyStrip opts.to_date))
        | some _ =>
            if opts.lookback_days ≤ 0 then
              Except.error (RunErr.configError "--lookback-days must be > 0")
            else if (365 : Int) < opts.lookback_days then
              Except.error (RunErr.configError "--max-lookback-days must be >= --lookback-days")
            else runQuotes net (pyStrip opts.api_base) opts.lookback_days.toNat
              (opts.quotes.map pyUpper) :=
  rfl

lemma handle_runQuotes (net : String → String → Nat → Except Unit PyVal)
    (opts : Opts) (today : PyDate)
    (hbase : pyStrip opts.api_base ≠ "")
    (hdt : pyStrip opts.to_date = "" ∨
      (parseDateYYYYMMDD (pyStrip opts.to_date)).isSome = true)
    (hlb1 : 0 < opts.lookback_days) (hlb2 : opts.lookback_days ≤ 365) :
    handle net opts today =
      runQuotes net (pyStrip opts.api_base) opts.lookback_days.toNat
        (opts.quotes.map pyUpper) := by
  rw [handle_unfold, if_neg hbase]
  obtain ⟨dte, hdte⟩ : ∃ dte,
      (if pyStrip opts.to_date ≠ "" then parseDateYYYYMMDD (pyStrip opts.to_date)
        else some today) = some dte := by
    rcases hdt with h | h
    · exact ⟨today, by simp [h]⟩
    · obtain ⟨d, hd⟩ := Option.isSome_iff_exists.mp h
      by_cases hne : pyStrip opts.to_date = ""
      · rw [hne] at hd
        exact absurd hd (by rw [show parseDateYYYYMMDD "" = Option.none from rfl]; simp)
      · exact ⟨d, by rw [if_pos hne, hd]⟩
  rw [hdte, if_neg (by omega), if_neg (by omega)]

/-- C5: a record that passes the currency filter and the presence guard
but has an unparsable date (not strict YYYY-MM-DD) or an unparsable value
makes `_fetch_latest_rate_in_range` raise instead of skipping the record,
and the raised error aborts the whole run: `handle` returns an error, and
since all persistence is recorded only in a successful `RunResult` (the
model of `@transaction.atomic`), every upsert of the run is rolled back. -/
theorem fetch_rates_hard_error_aborts
    (cur : String) (items : List PyVal) (kvs : List (String × PyVal))
    (hmem : PyVal.dict kvs ∈ items)
    (hccy : pyUpper (pyStrOf (dictGet kvs "currency" (PyVal.str ""))) = pyUpper cur)
    (hdate : pyTruthy (dictGet kvs "date" PyVal.none) = true)
    (hval : isNoneB (dictGet kvs "value" PyVal.none) = false)
    (hbad : parseDateYYYYMMDD (pyStrOf (dictGet kvs "date" PyVal.none)) = Option.none ∨
            decValid (pyStrOf (dictGet kvs "value" PyVal.none)) = false) :
    (∃ e, fetch_latest_rate_in_range (PyVal.list items) cur = Except.error e) ∧
    (∀ net opts today,
      pyStrip opts.api_base ≠ "" →
      (pyStrip opts.to_date = "" ∨
        (parseDateYYYYMMDD (pyStrip opts.to_date)).isSome = true) →
      0 < opts.lookback_days → opts.lookback_days ≤ 365 →
      cur ∈ opts.quotes.map pyUpper →
      net (pyStrip opts.api_base) cur opts.lookback_days.toNat =
        Except.ok (PyVal.list items) →
      ∃ e, handle net opts today = Except.error e) := by
  have hitem : ∃ e, processItem cur (PyVal.dict kvs) = Except.error e := by
    rw [processItem_dict, if_neg (by simp [hccy]), if_neg (by simp [hdate, hval])]
    rcases hbad with h | h
    · exact ⟨RunErr.valueError (pyStrOf (dictGet kvs "date" PyVal.none)), by rw [h]⟩
    · cases hd : parseDateYYYYMMDD (pyStrOf (dictGet kvs "date" PyVal.none)) with
      | none => exact ⟨RunErr.valueError (pyStrOf (dictGet kvs "date" PyVal.none)), rfl⟩
      | some d =>
          refine ⟨RunErr.commandError (dictGet kvs "value" PyVal.none), ?_⟩
          simp [to_decimal, h]
  obtain ⟨e0, he0⟩ := hitem
  obtain ⟨e1, he1⟩ := collectRows_error_of_mem hmem he0
  have hfetch : fetch_latest_rate_in_range (PyVal.list items) cur = Except.error e1 := by
    simp only [fetch_latest_rate_in_range]
    have hne : items ≠ [] := by
      intro hempty
      rw [hempty] at hmem
      simp at hmem
    rw [if_neg (by simp [List.isEmpty_iff, hne]), he1]
  refine ⟨⟨e1, hfetch⟩, ?_⟩
  intro net opts today hbase hdt hlb1 hlb2 hq hnet
  have hfs : fetchStep net (pyStrip opts.api_base) cur opts.lookback_days.toNat =
      Except.error e1 := by
    simp only [fetchStep]
    rw [hnet]
    exact hfetch
  have hsc := searchCurrency_error_first (by omega : opts.lookback_days.toNat ≤ 365) hfs
  have hpc := processCurrency_error hsc
  obtain ⟨e2, he2⟩ := runQuotes_error_of_mem hq hpc
  rw [handle_runQuotes net opts today hbase hdt hlb1 hlb2]
  exact ⟨e2, he2⟩

/-- Witness for C5: a USD record with the unparsable date "oops" aborts
the run via a hard error. -/
theorem fetch_rates_hard_error_aborts_witness :
    PyVal.dict [("currency", PyVal.str "USD"), ("date", PyVal.str "oops"),
        ("value", PyVal.str "1")] ∈
      [PyVal.dict [("currency", PyVal.str "USD"), ("date", PyVal.str "oops"),
        ("value", PyVal.str "1")]] ∧
    ((∃ e, fetch_latest_rate_in_range
        (PyVal.list [PyVal.dict [("currency", PyVal.str "USD"),
          ("date", PyVal.str "oops"), ("value", PyVal.str "1")]]) "USD" =
          Except.error e) ∧
     (∀ net opts today,
       pyStrip opts.api_base ≠ "" →
       (pyStrip opts.to_date = "" ∨
         (parseDateYYYYMMDD (pyStrip opts.to_date)).isSome = true) →
       0 < opts.lookback_days → opts.lookback_days ≤ 365 →
       "USD" ∈ opts.quotes.map pyUpper →
       net (pyStrip opts.api_base) "USD" opts.lookback_days.toNat =
         Except.ok (PyVal.list [PyVal.dict [("currency", PyVal.str "USD"),
           ("date", PyVal.str "oops"), ("value", PyVal.str "1")]]) →
       ∃ e, handle net opts today = Except.error e)) :=
  ⟨List.mem_singleton.mpr rfl,
   fetch_rates_hard_error_aborts "USD"
     [PyVal.dict [("currency", PyVal.str "USD"), ("date", PyVal.str "oops"),
       ("value", PyVal.str "1")]]
     [("currency", PyVal.str "USD"), ("date", PyVal.str "oops"), ("value", PyVal.str "1")]
     (List.mem_singleton.mpr rfl) rfl rfl rfl (Or.inl rfl)⟩

lemma searchFuel_zero (fetch : Nat → Except RunErr (Option BcmRateRow)) (l m c : Nat) :
    searchFuel fetch l m c 0 = Except.ok ([], Option.none) :=
  rfl

lemma searchFuel_some {fetch : Nat → Except RunErr (Option BcmRateRow)} {l m : Nat} :
    ∀ {f c : Nat} {ws : List Nat} {r : BcmRateRow},
      searchFuel fetch l m c f = Except.ok (ws, some r) →
      ∃ w, fetch w = Except.ok (some r) := by
  intro f
  induction f with
  | zero =>
      intro c ws r h
      rw [searchFuel_zero] at h
      simp at h
  | succ f ih =>
      intro c ws r h
      rw [searchFuel_succ] at h
      by_cases hc : c ≤ m
      · rw [if_pos hc] at h
        cases hfc : fetch c with
        | error e => rw [hfc] at h; simp at h
        | ok o =>
            cases o with
            | some rr =>
                rw [hfc] at h
                simp only [Except.ok.injEq, Prod.mk.injEq, Option.some.injEq] at h
                exact ⟨c, by rw [hfc, h.2]⟩
            | none =>
                rw [hfc] at h
                cases hrec : searchFuel fetch l m (min (c + l) (m + 1)) f with
                | error e => rw [hrec] at h; simp at h
                | ok p =>
                    obtain ⟨ws2, res⟩ := p
                    rw [hrec] at h
                    simp only [Except.ok.injEq, Prod.mk.injEq] at h
                    obtain ⟨-, h2⟩ := h
                    exact ih (by rw [hrec, h2])
      · rw [if_neg hc] at h; simp at h

lemma fetch_latest_some_currency {payload : PyVal} {cur : String} {r : BcmRateRow}
    (h : fetch_latest_rate_in_range payload cur = Except.ok (some r)) :
    r.currency = pyUpper cur := by
  cases payload with
  | list items =>
      simp only [fetch_latest_rate_in_range] at h
      by_cases hi : items.isEmpty = true
      · rw [if_pos hi] at h; simp at h
      · rw [if_neg hi] at h
        cases hc : collectRows cur items with
        | error e => rw [hc] at h; simp at h
        | ok rows =>
            rw [hc] at h
            simp only [Except.ok.injEq] at h
            exact collectRows_currency hc r (maxByRateDate_mem h)
  | none => simp [fetch_latest_rate_in_range] at h
  | bool b => simp [fetch_latest_rate_in_range] at h
  | int n => simp [fetch_latest_rate_in_range] at h
  | str s => simp [fetch_latest_rate_in_range] at h
  | dict kvs => simp [fetch_latest_rate_in_range] at h

lemma fetchStep_some_currency {net : String → String → Nat → Except Unit PyVal}
    {apiBase ccy : String} {w : Nat} {r : BcmRateRow}
    (h : fetchStep net apiBase ccy w = Except.ok (some r)) : r.currency = pyUpper ccy := by
  simp only [fetchStep] at h
  cases hn : net apiBase ccy w with
  | error u => rw [hn] at h; simp at h
  | ok payload =>
      rw [hn] at h
      exact fetch_latest_some_currency h

lemma processCurrency_some {net : String → String → Nat → Except Unit PyVal}
    {apiBase : String} {lb : Nat} {q : String} {cw : CurrencyWrite} {rwr : RateWrite}
    (h : processCurrency net apiBase lb q = Except.ok (some (cw, rwr))) :
    cw.code = pyUpper q ∧ rwr.currency = pyUpper q := by
  simp only [processCurrency] at h
  cases hs : searchCurrency (fetchStep net apiBase q) lb 365 with
  | error e => rw [hs] at h; simp at h
  | ok p =>
      obtain ⟨ws, res⟩ := p
      rw [hs] at h
      cases res with
      | none => simp at h
      | some latest =>
          simp only [Except.ok.injEq, Option.some.injEq, Prod.mk.injEq] at h
          obtain ⟨h1, h2⟩ := h
          obtain ⟨w, hw⟩ := searchFuel_some hs
          have hcur := fetchStep_some_currency hw
          constructor
          · rw [← h1]; exact hcur
          · rw [← h2]; exact hcur

lemma searchFuel_allnone {fetch : Nat → Except RunErr (Option BcmRateRow)} {l m : Nat}
    (hall : ∀ w, fetch w = Except.ok Option.none) :
    ∀ f c, ∃ ws, searchFuel fetch l m c f = Except.ok (ws, Option.none) := by
  intro f
  induction f with
  | zero => intro c; exact ⟨[], rfl⟩
  | succ f ih =>
      intro c
      by_cases hc : c ≤ m
      · obtain ⟨ws, hws⟩ := ih (min (c + l) (m + 1))
        exact ⟨c :: ws, by rw [searchFuel_succ, if_pos hc, hall c, hws]⟩
      · exact ⟨[], by rw [searchFuel_succ, if_neg hc]⟩

lemma processCurrency_none {net : String → String → Nat → Except Unit PyVal}
    {apiBase : String} {lb : Nat} {q : String}
    (hall : ∀ w, fetchStep net apiBase q w = Except.ok Option.none) :
    processCurrency net apiBase lb q = Except.ok Option.none := by
  obtain ⟨ws, hws⟩ := searchFuel_allnone hall (365 + 1) lb
  simp only [processCurrency]
  rw [show searchCurrency (fetchStep net apiBase q) lb 365 =
    Except.ok (ws, Option.none) from hws]

lemma runQuotes_no_data {net : String → String → Nat → Except Unit PyVal}
    {apiBase : String} {lb : Nat} {C : String} (hCu : pyUpper C = C)
    (hnone : ∀ q, pyUpper q = C → ∀ w,
      fetchStep net apiBase q w = Except.ok Option.none) :
    ∀ qs res, runQuotes net apiBase lb qs = Except.ok res →
      (C ∈ qs → C ∈ res.warnings) ∧
      (∀ cw ∈ res.currencyWrites, cw.code ≠ C) ∧
      (∀ rwr ∈ res.rateWrites, rwr.currency ≠ C) := by
  intro qs
  induction qs with
  | nil =>
      intro res h
      simp only [runQuotes, Except.ok.injEq] at h
      rw [← h]
      exact ⟨by simp, by simp, by simp⟩
  | cons a rest ih =>
      intro res h
      rw [runQuotes_cons] at h
      cases hp : processCurrency net apiBase lb a with
      | error e => rw [hp] at h; simp at h
      | ok o =>
          rw [hp] at h
          cases o with
          | none =>
              cases hr : runQuotes net apiBase lb rest with
              | error e => rw [hr] at h; simp at h
              | ok r0 =>
                  rw [hr] at h
                  simp only [Except.ok.injEq] at h
                  obtain ⟨hw1, hw2, hw3⟩ := ih r0 hr
                  rw [← h]
                  refine ⟨?_, hw2, hw3⟩
                  intro hC
                  rcases List.mem_cons.mp hC with rfl | hC
                  · exact List.mem_cons_self _ _
                  · exact List.mem_cons_of_mem _ (hw1 hC)
          | some p =>
              obtain ⟨cw, rwr⟩ := p
              cases hr : runQuotes net apiBase lb rest with
              | error e => rw [hr] at h; simp at h
              | ok r0 =>
                  rw [hr] at h
                  simp only [Except.ok.injEq] at h
                  obtain ⟨hc1, hc2⟩ := processCurrency_some hp
                  obtain ⟨hw1, hw2, hw3⟩ := ih r0 hr
                  rw [← h]
                  refine ⟨?_, ?_, ?_⟩
                  · intro hC
                    rcases List.mem_cons.mp hC with rfl | hC
                    · have hcn := @processCurrency_none net apiBase lb C (hnone C hCu)
                      rw [hp] at hcn
                      simp at hcn
                    · exact hw1 hC
                  · intro cw2 hcw2
                    rcases List.mem_cons.mp hcw2 with rfl | hcw2
                    · intro hEq
                      have hqa : pyUpper a = C := by rw [← hc1]; exact hEq
                      have hcn := @processCurrency_none net apiBase lb a (hnone a hqa)
                      rw [hp] at hcn
                      simp at hcn
                    · exact hw2 cw2 hcw2
                  · intro rwr2 hrwr2
                    rcases List.mem_cons.mp hrwr2 with rfl | hrwr2
                    · intro hEq
                      have hqa : pyUpper a = C := by rw [← hc2]; exact hEq
                      have hcn := @processCurrency_none net apiBase lb a (hnone a hqa)
                      rw [hp] at hcn
                      simp at hcn
                    · exact hw3 rwr2 hrwr2

/-- C8: if every query for a currency `C` (and for any quote normalising
to `C`) comes back empty over the whole lookback range, then the
per-currency step for `C` completes without error as a warning outcome —
so the loop moves on to the next currency — and any successful run has
`C` among its warnings and performs no `Currency` or `Rate` write for
`C`.  A run can still fail for OTHER reasons; no-data for `C` itself
never fails the run. -/
theorem fetch_rates_no_data_warning (net : String → String → Nat → Except Unit PyVal)
    (opts : Opts) (today : PyDate) (C : String)
    (hCu : pyUpper C = C)
    (hC : C ∈ opts.quotes.map pyUpper)
    (hnone : ∀ q, pyUpper q = C → ∀ w,
      fetchStep net (pyStrip opts.api_base) q w = Except.ok Option.none) :
    processCurrency net (pyStrip opts.api_base) opts.lookback_days.toNat C =
      Except.ok Option.none ∧
    ∀ res, handle net opts today = Except.ok res →
      C ∈ res.warnings ∧ (∀ cw ∈ res.currencyWrites, cw.code ≠ C) ∧
      (∀ rwr ∈ res.rateWrites, rwr.currency ≠ C) := by
  refine ⟨processCurrency_none (hnone C hCu), ?_⟩
  intro res h
  rw [handle_unfold] at h
  by_cases hbase : pyStrip opts.api_base = ""
  · rw [if_pos hbase] at h; simp at h
  · rw [if_neg hbase] at h
    cases hdt : (if pyStrip opts.to_date ≠ "" then parseDateYYYYMMDD (pyStrip opts.to_date)
        else some today) with
    | none => rw [hdt] at h; simp at h
    | some dte =>
        rw [hdt] at h
        by_cases hlb : opts.lookback_days ≤ 0
        · rw [if_pos hlb] at h; simp at h
        · rw [if_neg hlb] at h
          by_cases hlb2 : (365 : Int) < opts.lookback_days
          · rw [if_pos hlb2] at h; simp at h
          · rw [if_neg hlb2] at h
            obtain ⟨hw1, hw2, hw3⟩ :=
              runQuotes_no_data hCu hnone (opts.quotes.map pyUpper) res h
            exact ⟨hw1 hC, hw2, hw3⟩

/-- Witness for C8: a two-currency run where every query is empty; CNY is
warned about, no write carries CNY, and the run succeeds. -/
theorem fetch_rates_no_data_warning_witness :
    pyUpper "CNY" = "CNY" ∧
    "CNY" ∈ (Opts.mk ["USD", "CNY"] "base" "" 30 365).quotes.map pyUpper ∧
    (processCurrency (fun _ _ _ => Except.ok (PyVal.list []))
        (pyStrip (Opts.mk ["USD", "CNY"] "base" "" 30 365).api_base)
        (Opts.mk ["USD", "CNY"] "base" "" 30 365).lookback_days.toNat "CNY" =
      Except.ok Option.none ∧
     ∀ res, handle (fun _ _ _ => Except.ok (PyVal.list []))
         (Opts.mk ["USD", "CNY"] "base" "" 30 365) ⟨2025, 1, 1⟩ = Except.ok res →
       "CNY" ∈ res.warnings ∧ (∀ cw ∈ res.currencyWrites, cw.code ≠ "CNY") ∧
       (∀ rwr ∈ res.rateWrites, rwr.currency ≠ "CNY")) :=
  ⟨rfl, by decide,
   fetch_rates_no_data_warning (fun _ _ _ => Except.ok (PyVal.list []))
     (Opts.mk ["USD", "CNY"] "base" "" 30 365) ⟨2025, 1, 1⟩ "CNY" rfl (by decide)
     (fun q hq w => rfl)⟩

/-- C1 (code evaluation): `Command.handle` ignores the supplied
`--max-lookback-days` option: line 163 assigns the constant 365 to
`max_lookback_days` and never reads `opts["max_lookback_days"]`.
First conjunct: an invocation with `--lookback-days 400
--max-lookback-days 500`, which the claim says must be accepted
(400 ≤ 500), is rejected with a configuration error because the code
compares 400 against the hardcoded 365.  Second conjunct: an invocation
with `--lookback-days 30 --max-lookback-days 20`, which the claim says
must be rejected (30 > 20), is accepted and runs to completion. -/
theorem fetch_rates_max_lookback_ignored :
    handle (fun _ _ _ => Except.ok (PyVal.list []))
        (Opts.mk ["USD"] "base" "" 400 500) ⟨2025, 1, 1⟩ =
      Except.error (RunErr.configError "--max-lookback-days must be >= --lookback-days") ∧
    handle (fun _ _ _ => Except.ok (PyVal.list []))
        (Opts.mk ["USD"] "base" "" 30 20) ⟨2025, 1, 1⟩ =
      Except.ok ⟨[], [], ["USD"], 0⟩ :=
  ⟨rfl, rfl⟩
